import Mathlib

/-!
Verification development for the module-graph core of a JavaScript bundler
(the `Graph` coordinator, its inclusion/tree-shaking loop, chunk generation,
manual-chunk bookkeeping, plugin-cache eviction, module-info queries and
output-option normalization).

Each definition is a shallow embedding of the corresponding TypeScript
function.  Code that lives outside the provided sources (per-module AST
logic, the execution-order analyzer, the chunk-assignment algorithm) is
either taken as a parameter or modelled from the specification text; such
definitions carry a doc comment starting with `Modelled from the spec:`.
-/

/-- Structured fatal build errors.  Mirrors the error objects produced by
`utils/error` (`errCannotAssignModuleToChunk`, `errImplicitDependantIsNotIncluded`,
the `INVALID_OPTION` errors of output-option normalization, and the
"Unable to find module" failure of `getModuleInfo`).  The constructor fields
keep the data the error message interpolates, so theorems can state which
pieces of information an error names. -/
inductive RollupError where
  | cannotAssignModuleToChunk (moduleId : String) (chunkAlias : String) (existingAlias : String)
  | implicitDependantIsNotIncluded (moduleId : String)
  | invalidOption (message : String)
  | moduleNotFound (moduleId : String)
deriving DecidableEq

/-- A warning object as passed to the `onwarn` sink.  Only the fields set by
`Graph.linkAndOrderModules` for circular dependencies are modelled. -/
structure GraphWarning where
  code : String
  cycle : List String
  importer : String
  message : String
deriving DecidableEq

/-! ## Manual-chunk alias bookkeeping (`Graph.addModuleToManualChunk`) -/

/-- Lookup in the `manualChunkAliasByEntry` map (`Map<Module, string>`),
modelled as an association list from module id to alias. -/
def lookupAlias (map : List (String × String)) (moduleId : String) : Option String :=
  (map.find? (fun p => p.1 = moduleId)).map (fun p => p.2)

/-- `Map.set`: replace the binding for `moduleId` if present, otherwise add it. -/
def setAlias : List (String × String) → String → String → List (String × String)
  | [], moduleId, al => [(moduleId, al)]
  | (k, v) :: rest, moduleId, al =>
    if k = moduleId then (k, al) :: rest else (k, v) :: setAlias rest moduleId al

/-- `Graph.addModuleToManualChunk(chunkAlias, module)`: if the module already has a
different alias recorded, abort with `errCannotAssignModuleToChunk`; otherwise
record the alias. -/
def addModuleToManualChunk (manualChunkAliasByEntry : List (String × String))
    (al : String) (moduleId : String) :
    Except RollupError (List (String × String)) :=
  match lookupAlias manualChunkAliasByEntry moduleId with
  | some existingAlias =>
    if existingAlias ≠ al then
      .error (.cannotAssignModuleToChunk moduleId al existingAlias)
    else
      .ok (setAlias manualChunkAliasByEntry moduleId al)
  | none => .ok (setAlias manualChunkAliasByEntry moduleId al)

/-! ## Module-info queries (`Graph.getModuleInfo`) -/

/-- The internal-module view read by `getModuleInfo` (an internal `Module`
has sources, a resolved-id table, dynamic imports with optional statically
known resolutions, and implicit-ordering links). -/
structure InternalModuleView where
  id : String
  sources : List String
  resolvedIds : List (String × String)
  dynamicImportResolutions : List (Option String)
  dynamicImporters : List String
  moduleSideEffects : Bool
  implicitlyLoadedAfter : List String
  implicitlyLoadedBefore : List String
  importers : List String
  isEntryPoint : Bool
deriving DecidableEq

/-- The external-module view read by `getModuleInfo`. -/
structure ExternalModuleView where
  id : String
  dynamicImporters : List String
  moduleSideEffects : Bool
  importers : List String
deriving DecidableEq

/-- A value of the `modulesById` table: `Module | ExternalModule`. -/
inductive ModuleOrExternal where
  | internal (m : InternalModuleView)
  | external (m : ExternalModuleView)
deriving DecidableEq

/-- The `ModuleInfo` record returned to plugins. -/
structure ModuleInfo where
  dynamicallyImportedIds : List String
  dynamicImporters : List String
  hasModuleSideEffects : Bool
  id : String
  implicitlyLoadedAfterOneOf : List String
  implicitlyLoadedBefore : List String
  importedIds : List String
  importers : List String
  isEntry : Bool
  isExternal : Bool
deriving DecidableEq

/-- Insertion step for sorting a string list (models `Array.prototype.sort`). -/
def insertString (a : String) : List String → List String
  | [] => [a]
  | b :: rest => if a < b then a :: b :: rest else b :: insertString a rest

/-- Sorting of importer lists done by `getModuleInfo` (`.sort()`). -/
def sortStrings (l : List String) : List String := l.foldr insertString []

/-- `Graph.getModuleInfo(moduleId)`: look the id up in `modulesById`; an
unknown id throws (`Unable to find module ...`), a known id yields a
`ModuleInfo` record assembled from the module's fields. -/
def getModuleInfo (modulesById : List (String × ModuleOrExternal)) (moduleId : String) :
    Except RollupError ModuleInfo :=
  match (modulesById.find? (fun p => p.1 = moduleId)).map (fun p => p.2) with
  | none => .error (.moduleNotFound moduleId)
  | some foundModule =>
    let importedIds : List String :=
      match foundModule with
      | .internal m =>
        m.sources.filterMap (fun src => (m.resolvedIds.find? (fun p => p.1 = src)).map (fun p => p.2))
      | .external _ => []
    let dynamicallyImportedIds : List String :=
      match foundModule with
      | .internal m => m.dynamicImportResolutions.filterMap id
      | .external _ => []
    match foundModule with
    | .internal m =>
      .ok {
        dynamicallyImportedIds := dynamicallyImportedIds
        dynamicImporters := sortStrings m.dynamicImporters
        hasModuleSideEffects := m.moduleSideEffects
        id := m.id
        implicitlyLoadedAfterOneOf := m.implicitlyLoadedAfter
        implicitlyLoadedBefore := m.implicitlyLoadedBefore
        importedIds := importedIds
        importers := sortStrings m.importers
        isEntry := m.isEntryPoint
        isExternal := false }
    | .external m =>
      .ok {
        dynamicallyImportedIds := dynamicallyImportedIds
        dynamicImporters := sortStrings m.dynamicImporters
        hasModuleSideEffects := m.moduleSideEffects
        id := m.id
        implicitlyLoadedAfterOneOf := []
        implicitlyLoadedBefore := []
        importedIds := importedIds
        importers := sortStrings m.importers
        isEntry := false
        isExternal := true }

/-! ## Output-option normalization of `manualChunks` (`getManualChunks`) -/

/-- The `manualChunks` option: either the object form `{alias: [ids]}` or the
callback form.  The callback body is irrelevant to option normalization
(only JavaScript truthiness of the option value matters), so the function
form is a bare marker. -/
inductive ManualChunksOption where
  | objectForm (entries : List (String × List String))
  | functionForm
deriving DecidableEq

/-- `getManualChunks(config, inputOptions)`: take the output-level option,
falling back to the input-level one (`config.manualChunks || inputOptions.manualChunks`;
any supplied object or function is truthy).  A supplied option is rejected with
an `INVALID_OPTION` error when `inlineDynamicImports` or `preserveModules` is
set; an absent option defaults to `{}`. -/
def getManualChunks (configManualChunks : Option ManualChunksOption)
    (inputManualChunks : Option ManualChunksOption)
    (inlineDynamicImports : Bool) (preserveModules : Bool) :
    Except RollupError ManualChunksOption :=
  let configMC := configManualChunks.orElse (fun _ => inputManualChunks)
  match configMC with
  | some mc =>
    if inlineDynamicImports then
      .error (.invalidOption "\"manualChunks\" option is not supported for \"inlineDynamicImports\".")
    else if preserveModules then
      .error (.invalidOption "\"preserveModules\" does not support the \"manualChunks\" option.")
    else .ok mc
  | none => .ok (.objectForm [])

/-! ## The tree-shaking fixed-point loop of `Graph.includeStatements` -/

/-- Global state of the inclusion fixed point.  The monotone boolean facts a
build accumulates (statement-inclusion flags, `isExecuted` flags, ...) are a
finite family indexed by `Fin n` and represented as the set of facts that
currently hold, together with the coordinator's `needsTreeshakingPass` flag. -/
structure TreeshakeState (n : Nat) where
  facts : Finset (Fin n)
  needsTreeshakingPass : Bool
deriving DecidableEq

/-- One iteration of the body of the pass loop for a single module:
`if (module.isExecuted) module.include()`.  The module's local include step
(`inc`, external per-module logic) may add facts anywhere in the graph; the
module sets the global `needsTreeshakingPass` flag when it found new work,
i.e. when its include step changed the fact set. -/
def includeModuleStep {n m : Nat} (executedFlag : Fin m → Fin n)
    (inc : Fin m → Finset (Fin n) → Finset (Fin n))
    (st : TreeshakeState n) (mod : Fin m) : TreeshakeState n :=
  if executedFlag mod ∈ st.facts then
    let newFacts := inc mod st.facts
    { facts := newFacts
      needsTreeshakingPass := st.needsTreeshakingPass || decide (newFacts ≠ st.facts) }
  else st

/-- One tree-shaking pass: reset `needsTreeshakingPass` to `false`, then run
the local include step on every module already marked executed
(`this.needsTreeshakingPass = false; for (const module of this.modules) if (module.isExecuted) module.include();`). -/
def runIncludePass {n m : Nat} (modules : List (Fin m)) (executedFlag : Fin m → Fin n)
    (inc : Fin m → Finset (Fin n) → Finset (Fin n))
    (s : TreeshakeState n) : TreeshakeState n :=
  modules.foldl (includeModuleStep executedFlag inc) { s with needsTreeshakingPass := false }

/-- The `do ... while (this.needsTreeshakingPass)` loop of
`Graph.includeStatements`, with an explicit fuel bound (`none` means the fuel
ran out before the loop exited). -/
def treeshakeLoop {n m : Nat} (modules : List (Fin m)) (executedFlag : Fin m → Fin n)
    (inc : Fin m → Finset (Fin n) → Finset (Fin n)) :
    Nat → TreeshakeState n → Option (TreeshakeState n)
  | 0, _ => none
  | fuel + 1, s =>
    let s' := runIncludePass modules executedFlag inc s
    if s'.needsTreeshakingPass then treeshakeLoop modules executedFlag inc fuel s'
    else some s'

/-! ## The inclusion seed step of `Graph.includeStatements` (entry modules) -/

/-- The `preserveSignature` value of a module:
`'strict' | 'allow-extension' | 'exports-only' | false`. -/
inductive PreserveSignature where
  | psFalse
  | strict
  | allowExtension
  | exportsOnly
deriving DecidableEq

/-- The per-module data the seed step of `includeStatements` reads. -/
structure ModuleData where
  id : String
  preserveSignature : PreserveSignature
  exportNames : List String
  staticDependencies : List String
  moduleSideEffects : Bool
deriving DecidableEq

/-- Mutable inclusion state threaded through the seed step: which module ids
are marked executed, and which `(moduleId, exportName)` pairs are marked live. -/
structure InclusionState where
  executed : List String
  includedExports : List (String × String)
deriving DecidableEq

/-- Lookup of a module record by id in the module graph. -/
def lookupModule (env : List ModuleData) (moduleId : String) : Option ModuleData :=
  env.find? (fun m => m.id = moduleId)

/-- Modelled from the spec: `Module.includeAllExports` (per-module logic, not
among the provided sources) marks all of the module's exports live — "all of
its exports are marked live (its public surface is part of the contract with
the outside world and must not be shaken)". -/
def includeAllExports (m : ModuleData) (s : InclusionState) : InclusionState :=
  { s with includedExports := s.includedExports ++ m.exportNames.map (fun e => (m.id, e)) }

/-- Modelled from the spec: worklist traversal of
`markModuleAndImpureDependenciesAsExecuted` (`utils/traverseStaticDependencies`,
not among the provided sources).  Each popped module enqueues, and marks
executed, those static dependencies that have side effects and are not yet
executed; the traversal is fuel-bounded. -/
def markExecutedAux (env : List ModuleData) :
    Nat → List ModuleData → List String → List String
  | 0, _, visited => visited
  | _ + 1, [], visited => visited
  | fuel + 1, m :: rest, visited =>
    let deps := (m.staticDependencies.filterMap (lookupModule env)).filter
      (fun dm => dm.moduleSideEffects && !(decide (dm.id ∈ visited)))
    markExecutedAux env fuel (rest ++ deps) (visited ++ deps.map (fun dm => dm.id))

/-- Modelled from the spec: `markModuleAndImpureDependenciesAsExecuted(module)`
marks the module itself and, transitively, its side-effecting (impure) static
dependencies as executed — "only its side-effecting statements and anything
transitively reached from them are marked executed (its exports may be
eliminated if unused)".  It does not touch export-inclusion flags. -/
def markModuleAndImpureDependenciesAsExecuted (env : List ModuleData)
    (m : ModuleData) (s : InclusionState) : InclusionState :=
  { s with executed :=
      (markExecutedAux env (env.length + m.staticDependencies.length + 1) [m]
        (s.executed ++ [m.id])) }

/-- The seed step of `Graph.includeStatements`: for every module of
`[...this.entryModules, ...this.implicitEntryModules]`, include all its
exports when its `preserveSignature` is not explicitly disabled
(`!== false`), otherwise only mark it and its impure dependencies as
executed. -/
def seedStep (env : List ModuleData) (st : InclusionState) (m : ModuleData) : InclusionState :=
  if m.preserveSignature ≠ PreserveSignature.psFalse then includeAllExports m st
  else markModuleAndImpureDependenciesAsExecuted env m st

/-- See `seedStep`: the seed loop folds it over
`[...this.entryModules, ...this.implicitEntryModules]`. -/
def seedIncludeStatements (env : List ModuleData)
    (entryModules implicitEntryModules : List ModuleData)
    (s : InclusionState) : InclusionState :=
  (entryModules ++ implicitEntryModules).foldl (seedStep env) s

/-! ## The implicit-dependant post-check of `Graph.includeStatements` -/

/-- The view of an `implicitlyLoadedAfter` dependant module at post-check
time: its id and the two flags the check reads (`isEntryPoint`,
`isIncluded()`). -/
structure DependantView where
  id : String
  isEntryPoint : Bool
  isIncluded : Bool
deriving DecidableEq

/-- The inner loop of the post-check: scan one implicit entry module's
`implicitlyLoadedAfter` set; the first dependant that is neither an entry
point nor included aborts the build with `errImplicitDependantIsNotIncluded`. -/
def checkDependants : List DependantView → Except RollupError Unit
  | [] => .ok ()
  | d :: rest =>
    if !(d.isEntryPoint || d.isIncluded) then
      .error (.implicitDependantIsNotIncluded d.id)
    else checkDependants rest

/-- The post-check of `Graph.includeStatements`, run after the inclusion
fixed point: every implicit entry module's dependants are scanned in turn. -/
def checkImplicitEntries : List (List DependantView) → Except RollupError Unit
  | [] => .ok ()
  | deps :: rest =>
    match checkDependants deps with
    | .ok _ => checkImplicitEntries rest
    | .error e => .error e

/-! ## Execution-order analysis and `Graph.linkAndOrderModules` -/

/-- State of the depth-first execution-order traversal: the post-order output
sequence, the active recursion stack (most recent first) and the cycle paths
detected so far. -/
structure OrderState where
  ordered : List String
  stack : List String
  cyclePaths : List (List String)
deriving DecidableEq

/-- Modelled from the spec: the cycle path recorded for a back-edge to
`moduleId` — the ordered list of module ids forming the cycle, starting at the
back-edge target and following the active import chain. -/
def getCyclePath (moduleId : String) (stack : List String) : List String :=
  moduleId :: (stack.takeWhile (fun s => s != moduleId)).reverse

/-- Modelled from the spec: the depth-first traversal of
`analyseModuleExecution` (`utils/executionOrder`, not among the provided
sources).  Static import edges are followed in declaration order; a module is
appended to the output sequence after all its dependencies finish (post-order
topological sort); a dependency currently on the active recursion stack is a
back-edge, recorded as a cycle path instead of being descended into.  The
traversal is fuel-bounded; every recursive call consumes fuel. -/
def analyseMany (env : List (String × List String)) :
    Nat → List String → OrderState → OrderState
  | 0, _, st => st
  | _ + 1, [], st => st
  | fuel + 1, moduleId :: rest, st =>
    let st' :=
      if moduleId ∈ st.stack then
        { st with cyclePaths := st.cyclePaths ++ [getCyclePath moduleId st.stack] }
      else if moduleId ∈ st.ordered then st
      else
        let deps := ((env.find? (fun p => p.1 = moduleId)).map (fun p => p.2)).getD []
        let st1 := analyseMany env fuel deps { st with stack := moduleId :: st.stack }
        { st1 with stack := st.stack, ordered := st1.ordered ++ [moduleId] }
    analyseMany env fuel rest st'

/-- Fuel budget for the execution-order traversal of a graph. -/
def analyseFuel (env : List (String × List String)) (entryModules : List String) : Nat :=
  (entryModules.length + env.length + env.foldl (fun n p => n + p.2.length) 0 + 1) * 2

/-- Modelled from the spec: `analyseModuleExecution(entryModules)` returns the
deterministic ordered module sequence together with the list of detected
cycle paths. -/
def analyseModuleExecution (env : List (String × List String))
    (entryModules : List String) : List String × List (List String) :=
  let st := analyseMany env (analyseFuel env entryModules) entryModules
    { ordered := [], stack := [], cyclePaths := [] }
  (st.ordered, st.cyclePaths)

/-- The warning object `Graph.linkAndOrderModules` passes to `onwarn` for one
detected cycle path. -/
def circularDependencyWarning (cyclePath : List String) : GraphWarning :=
  { code := "CIRCULAR_DEPENDENCY"
    cycle := cyclePath
    importer := cyclePath.headD ""
    message := "Circular dependency: " ++ String.intercalate " -> " cyclePath }

/-- Result of `Graph.linkAndOrderModules`: the reordered module list
(`this.modules = orderedModules`) and the warnings sent to the `onwarn`
sink.  The function has no error outcome: cycles never abort the build. -/
structure LinkResult where
  orderedModules : List String
  warnings : List GraphWarning
deriving DecidableEq

/-- `Graph.linkAndOrderModules` (linking and reference binding are external
per-module operations that do not affect ordering or warnings): analyse
execution order, emit one `CIRCULAR_DEPENDENCY` warning per detected cycle
path, and continue with the ordered module list. -/
def linkAndOrderModules (env : List (String × List String))
    (entryModules : List String) : LinkResult :=
  let res := analyseModuleExecution env entryModules
  { orderedModules := res.1
    warnings := res.2.map circularDependencyWarning }

/-! ## Chunk generation (`Graph.generateChunks`) -/

/-- The per-module data chunk generation reads: inclusion state, entry-point
flag, the number of included dynamic importers, and the execution index used
by `sortByExecutionOrder`. -/
structure ChunkModule where
  id : String
  isIncluded : Bool
  isEntryPoint : Bool
  includedDynamicImporters : Nat
  execIndex : Nat
deriving DecidableEq

/-- A generated chunk: its module list, its designated entry modules and, for
manual chunks, the alias.  (`Chunk` construction also records bookkeeping
maps and later runs external `link`/facade logic; only the fields the claims
are about are modelled.  The `Chunk` constructor itself leaves
`entryModules` to be filled by external logic, modelled as `[]`; the
preserve-modules branch overwrites it explicitly.) -/
structure GChunk where
  modules : List ChunkModule
  entryModules : List ChunkModule
  manualAlias : Option String
deriving DecidableEq

/-- The options `generateChunks` consults. -/
structure GenOptions where
  preserveModules : Bool
  inlineDynamicImports : Bool
deriving DecidableEq

/-- Insertion step for `sortByExecutionOrder`. -/
def insertByExecIndex (a : ChunkModule) : List ChunkModule → List ChunkModule
  | [] => [a]
  | b :: rest =>
    if a.execIndex ≤ b.execIndex then a :: b :: rest else b :: insertByExecIndex a rest

/-- Modelled from the spec: `sortByExecutionOrder` (`utils/executionOrder`,
not among the provided sources) sorts a chunk's modules by their execution
index. -/
def sortByExecutionOrder (l : List ChunkModule) : List ChunkModule :=
  l.foldr insertByExecIndex []

/-- `Graph.generateChunks` without the trailing external `chunk.link()` and
facade generation (the returned list is the list of non-facade chunks; the
source appends externally generated facades afterwards).  In
preserve-modules mode, one single-module chunk per module that is included,
an entry point, or has an included dynamic importer.  Otherwise the module
partition is `[this.modules]` with no manual chunks when
`inlineDynamicImports` is set, else the result `chunkAssignments` of the
external `getChunkAssignments` (taken as a parameter); each part and each
manual-chunk alias group becomes a chunk, sorted by execution order. -/
def generateChunks (options : GenOptions) (modules : List ChunkModule)
    (chunkAssignments : List (List ChunkModule) × List (String × List ChunkModule)) :
    List GChunk :=
  if options.preserveModules then
    modules.filterMap (fun m =>
      if m.isIncluded || m.isEntryPoint || decide (0 < m.includedDynamicImporters) then
        some { modules := [m], entryModules := [m], manualAlias := none }
      else none)
  else
    let parts :=
      if options.inlineDynamicImports then ([modules], ([] : List (String × List ChunkModule)))
      else chunkAssignments
    (parts.1.map (fun chunkModules =>
      { modules := sortByExecutionOrder chunkModules
        entryModules := ([] : List ChunkModule)
        manualAlias := none }))
    ++ (parts.2.map (fun p =>
      { modules := sortByExecutionOrder p.2
        entryModules := ([] : List ChunkModule)
        manualAlias := some p.1 }))

/-! ## Plugin cache access counting and eviction (`Graph` constructor, `Graph.getCache`) -/

/-- One plugin's serializable cache: key/value entries, each carrying its
access counter (`cache[key][0]`).  The stored value is abstracted to `Nat`. -/
abbrev PluginCacheGroup := List (String × (Nat × Nat))

/-- The whole plugin cache: one group per plugin name. -/
abbrev PluginCacheStore := List (String × PluginCacheGroup)

/-- The access-counter increment the `Graph` constructor performs on every
cached entry (`for (const name in this.pluginCache) ... cache[key][0]++`). -/
def incrementAccessCounters (store : PluginCacheStore) : PluginCacheStore :=
  store.map (fun g => (g.1, g.2.map (fun e => (e.1, (e.2.1 + 1, e.2.2)))))

/-- Plugin-cache initialization in the `Graph` constructor.  The argument is
`none` when `options.cache === false` (no plugin cache kept at all);
otherwise it is `some cachePlugins`, where `cachePlugins` is
`options.cache?.plugins` (`none` standing for an absent `plugins` object,
replaced by the empty store).  When a cache is kept, every entry's access
counter is incremented once per build. -/
def constructorPluginCache (cacheOption : Option (Option PluginCacheStore)) :
    Option PluginCacheStore :=
  match cacheOption with
  | none => none
  | some cachePlugins => some (incrementAccessCounters (cachePlugins.getD []))

/-- The eviction pass of `Graph.getCache`: drop every entry whose access
counter has reached `experimentalCacheExpiry`, and drop a plugin's whole
group when all of its entries were dropped. -/
def evictStore (experimentalCacheExpiry : Nat) (store : PluginCacheStore) : PluginCacheStore :=
  store.filterMap (fun g =>
    let surviving := g.2.filter (fun e => decide (e.2.1 < experimentalCacheExpiry))
    if surviving.isEmpty then none else some (g.1, surviving))

/-- The plugin-cache part of the `RollupCache` returned by `Graph.getCache`
(the `modules` part serializes external per-module state). -/
def getCachePlugins (experimentalCacheExpiry : Nat) (pluginCache : Option PluginCacheStore) :
    Option PluginCacheStore :=
  pluginCache.map (evictStore experimentalCacheExpiry)

/-! ## Concrete inputs used by the witness theorems -/

/-- A concrete monotone per-module include step on one fact: always insert
fact `0`. -/
def includeStepWitness : Fin 1 → Finset (Fin 1) → Finset (Fin 1) :=
  fun _ f => insert 0 f

/-- A concrete entry module whose `preserveSignature` is not disabled. -/
def seedWitnessModule : ModuleData :=
  { id := "entry"
    preserveSignature := PreserveSignature.strict
    exportNames := ["x"]
    staticDependencies := []
    moduleSideEffects := true }

/-- A concrete one-entry resolved-id table holding only an external module
`a`. -/
def moduleTableWitness : List (String × ModuleOrExternal) :=
  [("a", ModuleOrExternal.external
    { id := "a", dynamicImporters := [], moduleSideEffects := true, importers := [] })]

/-- A concrete included module for exercising preserve-modules chunking. -/
def chunkModWitness : ChunkModule :=
  { id := "kept", isIncluded := true, isEntryPoint := false,
    includedDynamicImporters := 0, execIndex := 0 }

/-- A concrete module qualifying for no chunk in preserve-modules mode. -/
def chunkModWitness2 : ChunkModule :=
  { id := "dropped", isIncluded := false, isEntryPoint := false,
    includedDynamicImporters := 0, execIndex := 1 }

/-- A concrete plugin-cache store: one group whose entries are fresh and one
group whose single entry has expired. -/
def cacheStoreWitness : PluginCacheStore :=
  [("plug", [("k1", (2, 7)), ("k2", (0, 9))]), ("old", [("k3", (5, 1))])]

/-! ## Helper lemmas -/

theorem lookupAlias_setAlias_self (map : List (String × String)) (moduleId al : String) :
    lookupAlias (setAlias map moduleId al) moduleId = some al := by
  induction map with
  | nil => simp [setAlias, lookupAlias]
  | cons p rest ih =>
    obtain ⟨k, v⟩ := p
    by_cases hk : k = moduleId
    · subst hk
      simp [setAlias, lookupAlias]
    · simp only [setAlias, if_neg hk]
      simpa [lookupAlias, List.find?_cons, hk] using ih

/-! ## Claim theorems -/

/-- C5: assigning a module that already has a recorded manual-chunk alias `a`
to a different alias `b` aborts the build with
`errCannotAssignModuleToChunk`, an error naming both aliases; assigning the
same alias again succeeds and the module keeps its single alias (the alias
map binds each module to at most one alias). -/
theorem addModuleToManualChunk_conflict_spec (map : List (String × String))
    (moduleId a b : String) (h : lookupAlias map moduleId = some a) :
    (b ≠ a → addModuleToManualChunk map b moduleId =
      .error (.cannotAssignModuleToChunk moduleId b a)) ∧
    (b = a → addModuleToManualChunk map b moduleId = .ok (setAlias map moduleId b) ∧
      lookupAlias (setAlias map moduleId b) moduleId = some b) := by
  constructor
  · intro hne
    unfold addModuleToManualChunk
    rw [h]
    simp [Ne.symm hne]
  · intro heq
    subst heq
    unfold addModuleToManualChunk
    rw [h]
    simp [lookupAlias_setAlias_self]

/-- C5 witness: the module `m`, already recorded in alias `vendor`, is
assigned to alias `other`. -/
theorem addModuleToManualChunk_conflict_witness :
    lookupAlias [("m", "vendor")] "m" = some "vendor" ∧
    ("other" : String) ≠ "vendor" ∧
    addModuleToManualChunk [("m", "vendor")] "other" "m" =
      .error (.cannotAssignModuleToChunk "m" "other" "vendor") :=
  ⟨by decide, by decide,
    (addModuleToManualChunk_conflict_spec [("m", "vendor")] "m" "vendor" "other"
      (by decide)).1 (by decide)⟩

/-- C9: querying module info for an id that is absent from the resolved-id
table fails with the module-not-found error; querying an id present in the
table returns an info record without error. -/
theorem getModuleInfo_lookup_spec (modulesById : List (String × ModuleOrExternal))
    (moduleId : String) :
    (modulesById.find? (fun p => p.1 = moduleId) = none →
      getModuleInfo modulesById moduleId = .error (.moduleNotFound moduleId)) ∧
    (∀ entry, modulesById.find? (fun p => p.1 = moduleId) = some entry →
      ∃ info, getModuleInfo modulesById moduleId = .ok info) := by
  constructor
  · intro h
    unfold getModuleInfo
    rw [h]
    rfl
  · intro entry h
    unfold getModuleInfo
    rw [h]
    obtain ⟨key, mox⟩ := entry
    cases mox with
    | internal m => exact ⟨_, rfl⟩
    | external m => exact ⟨_, rfl⟩

/-- C9 witness: the table holding only module `a` is queried for the unknown
id `b`. -/
theorem getModuleInfo_lookup_witness :
    (moduleTableWitness.find? (fun p => p.1 = "b") = none) ∧
    getModuleInfo moduleTableWitness "b" = .error (.moduleNotFound "b") :=
  ⟨by decide, (getModuleInfo_lookup_spec moduleTableWitness "b").1 (by decide)⟩

/-- C10: output-option normalization rejects a supplied `manualChunks` option
(from the output config or inherited from the input options) together with
`inlineDynamicImports`, and likewise together with `preserveModules`, with an
`INVALID_OPTION` error in either case; when neither level supplies the
option, it defaults to the empty mapping. -/
theorem getManualChunks_option_spec (configMC inputMC : Option ManualChunksOption)
    (inlineDynamicImports preserveModules : Bool) :
    ((configMC.orElse (fun _ => inputMC)).isSome = true → inlineDynamicImports = true →
      getManualChunks configMC inputMC inlineDynamicImports preserveModules =
        .error (.invalidOption
          "\"manualChunks\" option is not supported for \"inlineDynamicImports\".")) ∧
    ((configMC.orElse (fun _ => inputMC)).isSome = true → inlineDynamicImports = false →
      preserveModules = true →
      getManualChunks configMC inputMC inlineDynamicImports preserveModules =
        .error (.invalidOption
          "\"preserveModules\" does not support the \"manualChunks\" option.")) ∧
    (configMC = none → inputMC = none →
      getManualChunks configMC inputMC inlineDynamicImports preserveModules =
        .ok (.objectForm [])) := by
  refine ⟨?_, ?_, ?_⟩
  · intro hsome hidi
    subst hidi
    obtain ⟨mc, hmc⟩ := Option.isSome_iff_exists.mp hsome
    unfold getManualChunks
    rw [hmc]
    rfl
  · intro hsome hidi hpm
    subst hidi
    subst hpm
    obtain ⟨mc, hmc⟩ := Option.isSome_iff_exists.mp hsome
    unfold getManualChunks
    rw [hmc]
    rfl
  · intro hc hi
    subst hc
    subst hi
    rfl

/-- C10 witness: a function-form `manualChunks` inherited from the input
options together with `inlineDynamicImports`. -/
theorem getManualChunks_option_witness :
    ((Option.none.orElse
        (fun _ => some ManualChunksOption.functionForm)).isSome = true) ∧
    getManualChunks none (some ManualChunksOption.functionForm) true false =
      .error (.invalidOption
        "\"manualChunks\" option is not supported for \"inlineDynamicImports\".") :=
  ⟨by decide,
    (getManualChunks_option_spec none (some ManualChunksOption.functionForm) true false).1
      (by decide) rfl⟩

theorem checkDependants_ok_iff (deps : List DependantView) :
    checkDependants deps = .ok () ↔
      ∀ d ∈ deps, (d.isEntryPoint || d.isIncluded) = true := by
  induction deps with
  | nil => simp [checkDependants]
  | cons d rest ih =>
    by_cases hd : (d.isEntryPoint || d.isIncluded) = true
    · have heq : checkDependants (d :: rest) = checkDependants rest := by
        simp [checkDependants, hd]
      rw [heq, ih]
      constructor
      · intro hall d2 hd2
        rcases List.mem_cons.mp hd2 with h | h
        · rw [h]; exact hd
        · exact hall d2 h
      · intro hall d2 hd2
        exact hall d2 (List.mem_cons_of_mem _ hd2)
    · have hd2 : (d.isEntryPoint || d.isIncluded) = false := by
        cases h2 : (d.isEntryPoint || d.isIncluded) with
        | false => rfl
        | true => exact absurd h2 hd
      have heq : checkDependants (d :: rest) =
          .error (.implicitDependantIsNotIncluded d.id) := by
        simp [checkDependants, hd2]
      rw [heq]
      constructor
      · intro h
        simp at h
      · intro hall
        exact absurd (hall d (List.mem_cons_self d rest)) hd

theorem checkDependants_cases (deps : List DependantView) :
    checkDependants deps = .ok () ∨
      ∃ d ∈ deps, (d.isEntryPoint || d.isIncluded) = false ∧
        checkDependants deps = .error (.implicitDependantIsNotIncluded d.id) := by
  induction deps with
  | nil => left; rfl
  | cons d rest ih =>
    by_cases hd : (d.isEntryPoint || d.isIncluded) = true
    · have heq : checkDependants (d :: rest) = checkDependants rest := by
        simp [checkDependants, hd]
      rcases ih with hok | ⟨d2, hd2, hflag, herr⟩
      · left
        rw [heq]
        exact hok
      · right
        exact ⟨d2, List.mem_cons_of_mem _ hd2, hflag, by rw [heq]; exact herr⟩
    · have hd2 : (d.isEntryPoint || d.isIncluded) = false := by
        cases h2 : (d.isEntryPoint || d.isIncluded) with
        | false => rfl
        | true => exact absurd h2 hd
      right
      exact ⟨d, List.mem_cons_self d rest, hd2, by simp [checkDependants, hd2]⟩

theorem checkImplicitEntries_ok_iff (sets : List (List DependantView)) :
    checkImplicitEntries sets = .ok () ↔
      ∀ deps ∈ sets, ∀ d ∈ deps, (d.isEntryPoint || d.isIncluded) = true := by
  induction sets with
  | nil => simp [checkImplicitEntries]
  | cons deps rest ih =>
    rcases checkDependants_cases deps with hok | ⟨d, hd, hflag, herr⟩
    · have heq : checkImplicitEntries (deps :: rest) = checkImplicitEntries rest := by
        simp [checkImplicitEntries, hok]
      have hall := (checkDependants_ok_iff deps).mp hok
      rw [heq, ih]
      constructor
      · intro h2 deps2 hdeps2
        rcases List.mem_cons.mp hdeps2 with h | h
        · rw [h]; exact hall
        · exact h2 deps2 h
      · intro h2 deps2 hdeps2
        exact h2 deps2 (List.mem_cons_of_mem _ hdeps2)
    · have heq : checkImplicitEntries (deps :: rest) =
          .error (.implicitDependantIsNotIncluded d.id) := by
        simp [checkImplicitEntries, herr]
      rw [heq]
      constructor
      · intro h
        simp at h
      · intro h2
        have h3 := h2 deps (List.mem_cons_self deps rest) d hd
        rw [h3] at hflag
        simp at hflag

theorem checkImplicitEntries_cases (sets : List (List DependantView)) :
    checkImplicitEntries sets = .ok () ∨
      ∃ d : DependantView, (d.isEntryPoint || d.isIncluded) = false ∧
        checkImplicitEntries sets = .error (.implicitDependantIsNotIncluded d.id) ∧
        ∃ deps ∈ sets, d ∈ deps := by
  induction sets with
  | nil => left; rfl
  | cons deps rest ih =>
    rcases checkDependants_cases deps with hok | ⟨d, hd, hflag, herr⟩
    · have heq : checkImplicitEntries (deps :: rest) = checkImplicitEntries rest := by
        simp [checkImplicitEntries, hok]
      rcases ih with hok2 | ⟨d2, hflag2, herr2, deps2, hdeps2, hd2⟩
      · left
        rw [heq]
        exact hok2
      · right
        exact ⟨d2, hflag2, by rw [heq]; exact herr2,
          deps2, List.mem_cons_of_mem _ hdeps2, hd2⟩
    · right
      exact ⟨d, hflag, by simp [checkImplicitEntries, herr],
        deps, List.mem_cons_self deps rest, hd⟩

/-- C4: the post-check after the inclusion fixed point succeeds exactly when
every `implicitlyLoadedAfter` dependant of every implicit entry module is an
entry point or included; otherwise the build aborts with the fatal
`errImplicitDependantIsNotIncluded` error for some failing dependant. -/
theorem implicit_dependant_check_spec (sets : List (List DependantView)) :
    (checkImplicitEntries sets = .ok () ↔
      ∀ deps ∈ sets, ∀ d ∈ deps, (d.isEntryPoint || d.isIncluded) = true) ∧
    (checkImplicitEntries sets = .ok () ∨
      ∃ d : DependantView, (d.isEntryPoint || d.isIncluded) = false ∧
        checkImplicitEntries sets = .error (.implicitDependantIsNotIncluded d.id) ∧
        ∃ deps ∈ sets, d ∈ deps) :=
  ⟨checkImplicitEntries_ok_iff sets, checkImplicitEntries_cases sets⟩

/-- C4 witness: one implicit entry module with a single dependant that is
neither an entry point nor included; by the theorem, the check cannot
succeed on this input. -/
theorem implicit_dependant_check_witness :
    ¬(∀ deps ∈ [[({ id := "x", isEntryPoint := false, isIncluded := false } : DependantView)]],
        ∀ d ∈ deps, (d.isEntryPoint || d.isIncluded) = true) ∧
    checkImplicitEntries
        [[({ id := "x", isEntryPoint := false, isIncluded := false } : DependantView)]] ≠
      .ok () :=
  ⟨by decide,
    fun hok =>
      (by decide :
        ¬(∀ deps ∈ [[({ id := "x", isEntryPoint := false, isIncluded := false } : DependantView)]],
            ∀ d ∈ deps, (d.isEntryPoint || d.isIncluded) = true))
        ((implicit_dependant_check_spec
          [[({ id := "x", isEntryPoint := false, isIncluded := false } : DependantView)]]).1.mp hok)⟩

/-- C8: the plugin cache honours the access-count eviction policy.  The
constructor keeps the plugin cache with every entry's access counter
incremented by one; `getCache` keeps exactly those entries whose counter is
still below `experimentalCacheExpiry` and keeps a plugin's group exactly
when at least one of its entries survives (a group all of whose entries were
deleted is deleted entirely). -/
theorem plugin_cache_policy_spec (store : PluginCacheStore) (expiry : Nat) :
    (getCachePlugins expiry (some store) = some (evictStore expiry store)) ∧
    (∀ name cache, (name, cache) ∈ evictStore expiry store ↔
      ∃ cache0, (name, cache0) ∈ store ∧
        cache = cache0.filter (fun e => decide (e.2.1 < expiry)) ∧ cache ≠ []) ∧
    (constructorPluginCache (some (some store)) = some (incrementAccessCounters store)) ∧
    (∀ name cache, (name, cache) ∈ store →
      (name, cache.map (fun e => (e.1, (e.2.1 + 1, e.2.2)))) ∈ incrementAccessCounters store) := by
  refine ⟨rfl, ?_, rfl, ?_⟩
  · intro name cache
    unfold evictStore
    rw [List.mem_filterMap]
    constructor
    · rintro ⟨g, hg, hfg⟩
      by_cases he : (g.2.filter (fun e => decide (e.2.1 < expiry))).isEmpty
      · rw [if_pos he] at hfg
        exact absurd hfg (by simp)
      · rw [if_neg he] at hfg
        obtain ⟨h1, h2⟩ := Prod.mk.injEq .. ▸ Option.some.injEq .. ▸ hfg
        refine ⟨g.2, ?_, h2.symm, ?_⟩
        · rw [← h1]
          exact hg
        · rw [← h2]
          intro hnil
          exact he (by rw [hnil]; rfl)
    · rintro ⟨cache0, hmem, hfilter, hne⟩
      refine ⟨(name, cache0), hmem, ?_⟩
      have he : ((name, cache0).2.filter (fun e => decide (e.2.1 < expiry))).isEmpty = false := by
        rw [List.isEmpty_eq_false_iff_exists_mem]
        rcases cache
        case nil => exact absurd rfl hne
        case cons e rest =>
          have : e ∈ cache0.filter (fun e2 => decide (e2.2.1 < expiry)) := by
            rw [← hfilter]
            exact List.mem_cons_self e rest
          exact ⟨e, this⟩
      rw [if_neg (by rw [he]; exact Bool.false_ne_true)]
      rw [← hfilter]
  · intro name cache hmem
    unfold incrementAccessCounters
    exact List.mem_map_of_mem _ hmem

/-- C8 witness: on the concrete store, the fresh group survives eviction at
expiry threshold 3 with its two fresh entries. -/
theorem plugin_cache_policy_witness :
    (("plug", [("k1", (2, 7)), ("k2", (0, 9))]) ∈ cacheStoreWitness) ∧
    (("plug", [("k1", (2, 7)), ("k2", (0, 9))]) ∈ evictStore 3 cacheStoreWitness) :=
  ⟨by decide,
    ((plugin_cache_policy_spec cacheStoreWitness 3).2.1 "plug"
        [("k1", (2, 7)), ("k2", (0, 9))]).mpr
      ⟨[("k1", (2, 7)), ("k2", (0, 9))], by decide, by decide, by decide⟩⟩

theorem insertByExecIndex_perm (a : ChunkModule) (l : List ChunkModule) :
    (insertByExecIndex a l).Perm (a :: l) := by
  induction l with
  | nil => exact List.Perm.refl _
  | cons b rest ih =>
    by_cases hab : a.execIndex ≤ b.execIndex
    · rw [insertByExecIndex, if_pos hab]
    · rw [insertByExecIndex, if_neg hab]
      exact (ih.cons b).trans (List.Perm.swap a b rest)

theorem sortByExecutionOrder_perm (l : List ChunkModule) :
    (sortByExecutionOrder l).Perm l := by
  induction l with
  | nil => exact List.Perm.refl _
  | cons a rest ih =>
    have h1 : sortByExecutionOrder (a :: rest) = insertByExecIndex a (sortByExecutionOrder rest) := rfl
    rw [h1]
    exact (insertByExecIndex_perm a (sortByExecutionOrder rest)).trans (ih.cons a)

theorem filterMap_guard_eq {α β : Type} (p : α → Bool) (g : α → β) (l : List α) :
    (l.filterMap (fun a => if p a then some (g a) else none)) = (l.filter p).map g := by
  induction l with
  | nil => rfl
  | cons a rest ih =>
    by_cases ha : p a
    · simp [List.filterMap_cons, List.filter_cons, ha, ih]
    · simp [List.filterMap_cons, List.filter_cons, ha, ih]

/-- C2 counterexample: in inline-dynamic-imports mode the generated chunk's
module list is `this.modules`, which can contain a module that is not
included (here a reachable module with nothing included); the claim that no
non-included module appears in the chunk fails on this input. -/
theorem generateChunks_inline_counterexample :
    ∃ c ∈ generateChunks { preserveModules := false, inlineDynamicImports := true }
        [{ id := "a", isIncluded := false, isEntryPoint := false,
           includedDynamicImporters := 0, execIndex := 0 }] ([], []),
      ∃ m ∈ c.modules, m.isIncluded = false := by decide

/-- C2 (amended): in inline-dynamic-imports mode chunk generation produces
exactly one non-facade chunk, no manual chunks, and that chunk's module list
is a permutation (the execution-order sort) of the full internal module list
`this.modules` — all internal modules, included or not. -/
theorem generateChunks_inline_single_chunk (modules : List ChunkModule)
    (chunkAssignments : List (List ChunkModule) × List (String × List ChunkModule)) :
    ∃ c, generateChunks { preserveModules := false, inlineDynamicImports := true }
        modules chunkAssignments = [c] ∧
      c.manualAlias = none ∧ c.modules.Perm modules := by
  refine ⟨{ modules := sortByExecutionOrder modules, entryModules := [], manualAlias := none },
    ?_, rfl, sortByExecutionOrder_perm modules⟩
  rfl

/-- C7: in preserve-modules mode, chunk generation creates exactly one
single-module chunk (with that module as its sole entry module) for each
internal module that is included, or is an entry point, or has at least one
included dynamic importer, and creates no chunk for any other module: the
chunk list is exactly the image of the filtered module list. -/
theorem generateChunks_preserveModules_spec (modules : List ChunkModule) (idi : Bool)
    (chunkAssignments : List (List ChunkModule) × List (String × List ChunkModule)) :
    (generateChunks { preserveModules := true, inlineDynamicImports := idi }
        modules chunkAssignments =
      (modules.filter (fun m => m.isIncluded || m.isEntryPoint ||
          decide (0 < m.includedDynamicImporters))).map
        (fun m => { modules := [m], entryModules := [m], manualAlias := none })) ∧
    (∀ m ∈ modules,
      (m.isIncluded || m.isEntryPoint || decide (0 < m.includedDynamicImporters)) = true →
      ({ modules := [m], entryModules := [m], manualAlias := none } : GChunk) ∈
        generateChunks { preserveModules := true, inlineDynamicImports := idi }
          modules chunkAssignments) ∧
    (∀ c ∈ generateChunks { preserveModules := true, inlineDynamicImports := idi }
        modules chunkAssignments,
      ∃ m ∈ modules,
        (m.isIncluded || m.isEntryPoint || decide (0 < m.includedDynamicImporters)) = true ∧
        c = { modules := [m], entryModules := [m], manualAlias := none }) := by
  have h1 : generateChunks { preserveModules := true, inlineDynamicImports := idi }
      modules chunkAssignments =
    (modules.filter (fun m => m.isIncluded || m.isEntryPoint ||
        decide (0 < m.includedDynamicImporters))).map
      (fun m => { modules := [m], entryModules := [m], manualAlias := none }) := by
    unfold generateChunks
    rw [if_pos rfl]
    exact filterMap_guard_eq _ _ modules
  refine ⟨h1, ?_, ?_⟩
  · intro m hm hpred
    rw [h1]
    exact List.mem_map_of_mem _ (List.mem_filter.mpr ⟨hm, hpred⟩)
  · intro c hc
    rw [h1] at hc
    obtain ⟨m, hmf, hcm⟩ := List.mem_map.mp hc
    obtain ⟨hm, hpred⟩ := List.mem_filter.mp hmf
    exact ⟨m, hm, hpred, hcm.symm⟩

/-- C7 witness: of two concrete modules, the included one gets its
single-module chunk. -/
theorem generateChunks_preserveModules_witness :
    chunkModWitness ∈ [chunkModWitness, chunkModWitness2] ∧
    (chunkModWitness.isIncluded || chunkModWitness.isEntryPoint ||
      decide (0 < chunkModWitness.includedDynamicImporters)) = true ∧
    ({ modules := [chunkModWitness], entryModules := [chunkModWitness],
        manualAlias := none } : GChunk) ∈
      generateChunks { preserveModules := true, inlineDynamicImports := false }
        [chunkModWitness, chunkModWitness2] ([], []) :=
  ⟨by decide, by decide,
    (generateChunks_preserveModules_spec [chunkModWitness, chunkModWitness2] false
        ([], [])).2.1 chunkModWitness (by decide) (by decide)⟩

/-- C6: static-import cycles never abort the build.  `linkAndOrderModules`
always produces a result (it has no error outcome): it proceeds with the
ordered module list of the execution-order analysis and reports each detected
cycle path as exactly one warning whose `code` is `CIRCULAR_DEPENDENCY` and
whose `cycle` is the ordered id list of that cycle.  On the two-module cycle
`A imports B imports A` it emits one such warning with cycle `[A, B]`, and
the ordered module list contains `A` and `B` exactly once each. -/
theorem linkAndOrderModules_cycles_spec :
    (∀ env entryModules,
      (linkAndOrderModules env entryModules).orderedModules =
        (analyseModuleExecution env entryModules).1 ∧
      (linkAndOrderModules env entryModules).warnings =
        (analyseModuleExecution env entryModules).2.map circularDependencyWarning ∧
      ∀ w ∈ (linkAndOrderModules env entryModules).warnings,
        w.code = "CIRCULAR_DEPENDENCY" ∧
          w.cycle ∈ (analyseModuleExecution env entryModules).2) ∧
    ((linkAndOrderModules [("A", ["B"]), ("B", ["A"])] ["A"]).warnings =
      [circularDependencyWarning ["A", "B"]]) ∧
    ((circularDependencyWarning ["A", "B"]).code = "CIRCULAR_DEPENDENCY") ∧
    ((circularDependencyWarning ["A", "B"]).cycle = ["A", "B"]) ∧
    ((linkAndOrderModules [("A", ["B"]), ("B", ["A"])] ["A"]).orderedModules.count "A" = 1) ∧
    ((linkAndOrderModules [("A", ["B"]), ("B", ["A"])] ["A"]).orderedModules.count "B" = 1) := by
  refine ⟨?_, by decide, by decide, by decide, by decide, by decide⟩
  intro env entryModules
  refine ⟨rfl, rfl, ?_⟩
  intro w hw
  obtain ⟨cp, hcp, hwcp⟩ := List.mem_map.mp hw
  constructor
  · rw [← hwcp]
    rfl
  · rw [← hwcp]
    exact hcp

theorem mem_markExecutedAux (env : List ModuleData) :
    ∀ (fuel : Nat) (wl : List ModuleData) (v : List String) (x : String),
      x ∈ v → x ∈ markExecutedAux env fuel wl v := by
  intro fuel
  induction fuel with
  | zero =>
    intro wl v x hx
    simpa [markExecutedAux] using hx
  | succ fuel ih =>
    intro wl v x hx
    cases wl with
    | nil => simpa [markExecutedAux] using hx
    | cons m rest =>
      simp only [markExecutedAux]
      exact ih _ _ _ (List.mem_append_left _ hx)

theorem markModule_executed_self (env : List ModuleData) (m : ModuleData) (s : InclusionState) :
    m.id ∈ (markModuleAndImpureDependenciesAsExecuted env m s).executed := by
  unfold markModuleAndImpureDependenciesAsExecuted
  exact mem_markExecutedAux env _ _ _ m.id (by simp)

theorem markModule_executed_mono (env : List ModuleData) (m : ModuleData)
    (s : InclusionState) (x : String) (hx : x ∈ s.executed) :
    x ∈ (markModuleAndImpureDependenciesAsExecuted env m s).executed := by
  unfold markModuleAndImpureDependenciesAsExecuted
  exact mem_markExecutedAux env _ _ _ x (List.mem_append_left _ hx)

theorem markModule_impure_dep (env : List ModuleData) (m : ModuleData)
    (s : InclusionState) (d : String) (dm : ModuleData)
    (hd : d ∈ m.staticDependencies) (hl : lookupModule env d = some dm)
    (hse : dm.moduleSideEffects = true) :
    dm.id ∈ (markModuleAndImpureDependenciesAsExecuted env m s).executed := by
  unfold markModuleAndImpureDependenciesAsExecuted
  simp only [markExecutedAux]
  apply mem_markExecutedAux
  by_cases hin : dm.id ∈ s.executed ++ [m.id]
  · exact List.mem_append_left _ hin
  · apply List.mem_append_right
    apply List.mem_map_of_mem
    apply List.mem_filter.mpr
    refine ⟨List.mem_filterMap.mpr ⟨d, hd, hl⟩, ?_⟩
    simp [hse, hin]

theorem seedFold_includedExports (env : List ModuleData) :
    ∀ (mods : List ModuleData) (s : InclusionState) (i e : String),
      ((i, e) ∈ (mods.foldl (seedStep env) s).includedExports ↔
        (i, e) ∈ s.includedExports ∨
          ∃ m, m ∈ mods ∧ m.preserveSignature ≠ PreserveSignature.psFalse ∧
            m.id = i ∧ e ∈ m.exportNames) := by
  intro mods
  induction mods with
  | nil =>
    intro s i e
    simp
  | cons m rest ih =>
    intro s i e
    rw [List.foldl_cons, ih]
    have hstep : ((i, e) ∈ (seedStep env s m).includedExports ↔
        (i, e) ∈ s.includedExports ∨
          (m.preserveSignature ≠ PreserveSignature.psFalse ∧ m.id = i ∧ e ∈ m.exportNames)) := by
      unfold seedStep
      by_cases hps : m.preserveSignature ≠ PreserveSignature.psFalse
      · rw [if_pos hps]
        unfold includeAllExports
        simp only [List.mem_append, List.mem_map]
        constructor
        · rintro (h | ⟨e0, he0, heq⟩)
          · left; exact h
          · right
            obtain ⟨h1, h2⟩ := Prod.mk.injEq .. ▸ heq
            exact ⟨hps, h1, h2 ▸ he0⟩
        · rintro (h | ⟨_, h1, h2⟩)
          · left; exact h
          · right
            exact ⟨e, h2, by rw [h1]⟩
      · rw [if_neg hps]
        unfold markModuleAndImpureDependenciesAsExecuted
        constructor
        · intro h
          left
          exact h
        · rintro (h | ⟨hps2, _, _⟩)
          · exact h
          · exact absurd hps2 hps
    rw [hstep]
    constructor
    · rintro ((h | hp) | ⟨m2, hm2, hq⟩)
      · left; exact h
      · right; exact ⟨m, List.mem_cons_self m rest, hp⟩
      · right; exact ⟨m2, List.mem_cons_of_mem _ hm2, hq⟩
    · rintro (h | ⟨m2, hm2, hq⟩)
      · left; left; exact h
      · rcases List.mem_cons.mp hm2 with heq | hmem
        · left; right; rw [← heq]; exact hq
        · right; exact ⟨m2, hmem, hq⟩

theorem seedFold_executed_mono (env : List ModuleData) :
    ∀ (mods : List ModuleData) (s : InclusionState) (x : String),
      x ∈ s.executed → x ∈ (mods.foldl (seedStep env) s).executed := by
  intro mods
  induction mods with
  | nil =>
    intro s x hx
    simpa using hx
  | cons m rest ih =>
    intro s x hx
    rw [List.foldl_cons]
    apply ih
    unfold seedStep
    by_cases hps : m.preserveSignature ≠ PreserveSignature.psFalse
    · rw [if_pos hps]
      exact hx
    · rw [if_neg hps]
      exact markModule_executed_mono env m s x hx

theorem seedFold_marks_disabled (env : List ModuleData) :
    ∀ (mods : List ModuleData) (s : InclusionState) (m : ModuleData),
      m ∈ mods → m.preserveSignature = PreserveSignature.psFalse →
      (m.id ∈ (mods.foldl (seedStep env) s).executed ∧
        ∀ d dm, d ∈ m.staticDependencies → lookupModule env d = some dm →
          dm.moduleSideEffects = true →
          dm.id ∈ (mods.foldl (seedStep env) s).executed) := by
  intro mods
  induction mods with
  | nil =>
    intro s m hm _
    exact absurd hm (List.not_mem_nil m)
  | cons m0 rest ih =>
    intro s m hm hps
    rcases List.mem_cons.mp hm with heq | hmem
    · subst heq
      rw [List.foldl_cons]
      constructor
      · apply seedFold_executed_mono env rest
        unfold seedStep
        rw [if_neg (by simp [hps])]
        exact markModule_executed_self env m s
      · intro d dm hd hl hse
        apply seedFold_executed_mono env rest
        unfold seedStep
        rw [if_neg (by simp [hps])]
        exact markModule_impure_dep env m s d dm hd hl hse
    · rw [List.foldl_cons]
      exact ih _ m hmem hps

/-- C3: for every entry module and every implicit-entry module `m` seeded by
`includeStatements`, if `m.preserveSignature` is not explicitly disabled
(not equal to `false`) all of `m`'s exports are marked live; if it is
disabled, `m` and its side-effecting (impure) static dependencies are marked
executed instead, and none of `m`'s exports is force-included. -/
theorem seed_preserveSignature_spec (env entryModules implicitEntryModules : List ModuleData)
    (s : InclusionState) (m : ModuleData)
    (hm : m ∈ entryModules ++ implicitEntryModules)
    (huniq : ∀ m2 ∈ entryModules ++ implicitEntryModules, m2.id = m.id → m2 = m) :
    (m.preserveSignature ≠ PreserveSignature.psFalse →
      ∀ e ∈ m.exportNames,
        (m.id, e) ∈
          (seedIncludeStatements env entryModules implicitEntryModules s).includedExports) ∧
    (m.preserveSignature = PreserveSignature.psFalse →
      m.id ∈ (seedIncludeStatements env entryModules implicitEntryModules s).executed ∧
      (∀ d dm, d ∈ m.staticDependencies → lookupModule env d = some dm →
        dm.moduleSideEffects = true →
        dm.id ∈ (seedIncludeStatements env entryModules implicitEntryModules s).executed) ∧
      (∀ e, ((m.id, e) ∈
          (seedIncludeStatements env entryModules implicitEntryModules s).includedExports ↔
        (m.id, e) ∈ s.includedExports))) := by
  unfold seedIncludeStatements
  constructor
  · intro hps e he
    rw [seedFold_includedExports]
    right
    exact ⟨m, hm, hps, rfl, he⟩
  · intro hps
    obtain ⟨h1, h2⟩ :=
      seedFold_marks_disabled env (entryModules ++ implicitEntryModules) s m hm hps
    refine ⟨h1, h2, ?_⟩
    intro e
    rw [seedFold_includedExports]
    constructor
    · rintro (h | ⟨m2, hm2, hps2, hid2, _⟩)
      · exact h
      · rw [huniq m2 hm2 hid2] at hps2
        exact absurd hps hps2
    · intro h
      left
      exact h

/-- C3 witness: a single entry module with `preserveSignature` `strict` and
one export `x`; the seed step marks that export live. -/
theorem seed_preserveSignature_witness :
    seedWitnessModule ∈ [seedWitnessModule] ++ ([] : List ModuleData) ∧
    seedWitnessModule.preserveSignature ≠ PreserveSignature.psFalse ∧
    ("entry", "x") ∈
      (seedIncludeStatements [] [seedWitnessModule] []
        { executed := [], includedExports := [] }).includedExports :=
  ⟨by decide, by decide,
    (seed_preserveSignature_spec [] [seedWitnessModule] []
        { executed := [], includedExports := [] } seedWitnessModule
        (by decide) (by decide)).1 (by decide) "x" (by decide)⟩

theorem includePass_fold_invariant {n m : Nat} (executedFlag : Fin m → Fin n)
    (inc : Fin m → Finset (Fin n) → Finset (Fin n))
    (hmono : ∀ mod f, f ⊆ inc mod f) (s0 : Finset (Fin n)) :
    ∀ (mods : List (Fin m)) (st : TreeshakeState n),
      s0 ⊆ st.facts →
      (st.needsTreeshakingPass = true → s0 ⊂ st.facts) →
      (st.needsTreeshakingPass = false → st.facts = s0) →
      (s0 ⊆ (mods.foldl (includeModuleStep executedFlag inc) st).facts ∧
        ((mods.foldl (includeModuleStep executedFlag inc) st).needsTreeshakingPass = true →
          s0 ⊂ (mods.foldl (includeModuleStep executedFlag inc) st).facts) ∧
        ((mods.foldl (includeModuleStep executedFlag inc) st).needsTreeshakingPass = false →
          (mods.foldl (includeModuleStep executedFlag inc) st).facts = s0)) := by
  intro mods
  induction mods with
  | nil =>
    intro st h1 h2 h3
    exact ⟨h1, h2, h3⟩
  | cons mod rest ih =>
    intro st h1 h2 h3
    rw [List.foldl_cons]
    apply ih
    · by_cases hex : executedFlag mod ∈ st.facts
      · rw [includeModuleStep, if_pos hex]
        exact h1.trans (hmono mod st.facts)
      · rw [includeModuleStep, if_neg hex]
        exact h1
    · by_cases hex : executedFlag mod ∈ st.facts
      · rw [includeModuleStep, if_pos hex]
        intro hflag
        simp only [Bool.or_eq_true, decide_eq_true_eq] at hflag
        rcases hflag with hold | hne
        · exact (h2 hold).trans_subset (hmono mod st.facts)
        · have hss : st.facts ⊂ inc mod st.facts :=
            (Finset.ssubset_iff_subset_ne).mpr ⟨hmono mod st.facts, fun heq => hne heq.symm⟩
          exact lt_of_le_of_lt h1 hss
      · rw [includeModuleStep, if_neg hex]
        exact h2
    · by_cases hex : executedFlag mod ∈ st.facts
      · rw [includeModuleStep, if_pos hex]
        intro hflag
        simp only [Bool.or_eq_false_iff, decide_eq_false_iff_not, not_not] at hflag
        rw [hflag.2]
        exact h3 hflag.1
      · rw [includeModuleStep, if_neg hex]
        exact h3

theorem runIncludePass_props {n m : Nat} (modules : List (Fin m))
    (executedFlag : Fin m → Fin n) (inc : Fin m → Finset (Fin n) → Finset (Fin n))
    (hmono : ∀ mod f, f ⊆ inc mod f) (s : TreeshakeState n) :
    (s.facts ⊆ (runIncludePass modules executedFlag inc s).facts ∧
      ((runIncludePass modules executedFlag inc s).needsTreeshakingPass = true →
        s.facts ⊂ (runIncludePass modules executedFlag inc s).facts) ∧
      ((runIncludePass modules executedFlag inc s).needsTreeshakingPass = false →
        (runIncludePass modules executedFlag inc s).facts = s.facts)) := by
  unfold runIncludePass
  apply includePass_fold_invariant executedFlag inc hmono s.facts modules
    { s with needsTreeshakingPass := false }
  · exact Finset.Subset.refl _
  · intro h
    exact absurd h (by simp)
  · intro _
    rfl

theorem treeshakeLoop_total {n m : Nat} (modules : List (Fin m))
    (executedFlag : Fin m → Fin n) (inc : Fin m → Finset (Fin n) → Finset (Fin n))
    (hmono : ∀ mod f, f ⊆ inc mod f) :
    ∀ (fuel : Nat) (s : TreeshakeState n), n - s.facts.card < fuel →
      ∃ r, treeshakeLoop modules executedFlag inc fuel s = some r ∧
        r.needsTreeshakingPass = false ∧ s.facts ⊆ r.facts := by
  intro fuel
  induction fuel with
  | zero =>
    intro s hs
    exact absurd hs (Nat.not_lt_zero _)
  | succ fuel ih =>
    intro s hs
    obtain ⟨hsub, hstrict, hfix⟩ := runIncludePass_props modules executedFlag inc hmono s
    by_cases hflag : (runIncludePass modules executedFlag inc s).needsTreeshakingPass = true
    · have hlt : s.facts.card < (runIncludePass modules executedFlag inc s).facts.card :=
        Finset.card_lt_card (hstrict hflag)
      have hle : (runIncludePass modules executedFlag inc s).facts.card ≤ n := by
        have hcard := Finset.card_le_univ (runIncludePass modules executedFlag inc s).facts
        simpa [Finset.card_univ] using hcard
      obtain ⟨r, hr, hrflag, hrsub⟩ :=
        ih (runIncludePass modules executedFlag inc s) (by omega)
      refine ⟨r, ?_, hrflag, hsub.trans hrsub⟩
      rw [treeshakeLoop, if_pos hflag]
      exact hr
    · have hflag2 : (runIncludePass modules executedFlag inc s).needsTreeshakingPass = false := by
        cases h2 : (runIncludePass modules executedFlag inc s).needsTreeshakingPass with
        | false => rfl
        | true => exact absurd h2 hflag
      refine ⟨runIncludePass modules executedFlag inc s, ?_, hflag2, hsub⟩
      rw [treeshakeLoop, if_neg hflag]

/-- C1: with tree-shaking enabled, the pass loop of `includeStatements`
resets `needsTreeshakingPass` at the start of each pass and runs each
already-executed module's include step, so that after a pass the flag is set
exactly when the pass produced new inclusions; under the hypothesis that
every module's include step is monotonic (flags only flip off to on) over
the finite fact set, the `do`/`while` loop terminates within `n + 1` passes,
ending in a state whose flag is clear and whose facts extend the initial
ones. -/
theorem treeshaking_loop_terminates {n m : Nat} (modules : List (Fin m))
    (executedFlag : Fin m → Fin n) (inc : Fin m → Finset (Fin n) → Finset (Fin n))
    (hmono : ∀ mod f, f ⊆ inc mod f) (s : TreeshakeState n) :
    ((runIncludePass modules executedFlag inc s).needsTreeshakingPass = true ↔
      s.facts ⊂ (runIncludePass modules executedFlag inc s).facts) ∧
    ∃ r, treeshakeLoop modules executedFlag inc (n + 1) s = some r ∧
      r.needsTreeshakingPass = false ∧ s.facts ⊆ r.facts := by
  obtain ⟨hsub, hstrict, hfix⟩ := runIncludePass_props modules executedFlag inc hmono s
  constructor
  · constructor
    · exact hstrict
    · intro hss
      cases h2 : (runIncludePass modules executedFlag inc s).needsTreeshakingPass with
      | true => rfl
      | false =>
        rw [hfix h2] at hss
        exact absurd hss (ssubset_irrefl _)
  · exact treeshakeLoop_total modules executedFlag inc hmono (n + 1) s
      (Nat.lt_succ_of_le (Nat.sub_le n s.facts.card))

/-- C1 witness: one module, one fact, the monotone include step that inserts
fact `0`; the loop over fuel `1 + 1` finishes with the flag clear. -/
theorem treeshaking_loop_terminates_witness :
    (∀ (mod : Fin 1) (f : Finset (Fin 1)), f ⊆ includeStepWitness mod f) ∧
    (((runIncludePass [0] (fun _ => 0) includeStepWitness
          { facts := ∅, needsTreeshakingPass := false }).needsTreeshakingPass = true ↔
        ({ facts := ∅, needsTreeshakingPass := false } : TreeshakeState 1).facts ⊂
          (runIncludePass [0] (fun _ => 0) includeStepWitness
            { facts := ∅, needsTreeshakingPass := false }).facts) ∧
      ∃ r, treeshakeLoop [0] (fun _ => 0) includeStepWitness (1 + 1)
          { facts := ∅, needsTreeshakingPass := false } = some r ∧
        r.needsTreeshakingPass = false ∧
        ({ facts := ∅, needsTreeshakingPass := false } : TreeshakeState 1).facts ⊆ r.facts) :=
  ⟨by decide,
    treeshaking_loop_terminates [0] (fun _ => 0) includeStepWitness (by decide)
      { facts := ∅, needsTreeshakingPass := false }⟩
